import Mathlib

/-!
Verification development for the text-classification model of the
`mmworkbench` repository (`mmworkbench/models/text_models.py`, class
`TextModel`).

The Python code is shallowly embedded: pure computations become Lean
functions, the `TextModel` instance attributes become an explicit state
structure, Python dicts become association lists (new entries are written
at the front, lookup returns the first match, which reproduces dict
write/read semantics), floats become rationals, the value `-np.Infinity`
becomes the bottom element of `WithBot ℚ`, raised exceptions become
`Except`, and the in-place mutation of the parameter dictionary becomes an
explicit reference/store pair.  External collaborators (scikit-learn
estimators, the label encoder, the feature extractor, cross-validation
search) are opaque function parameters, exactly as the spec treats them.
-/

/-- A probability (or log-probability) value of a prediction row.
`⊥` plays the role of `-np.Infinity`; every finite float of the source
is a rational. -/
abbrev Val := WithBot ℚ

/-- First-match lookup in an association list; together with writing new
entries at the front this models Python `dict.__setitem__`/`dict.get`. -/
def alist_get {K W : Type} [DecidableEq K] : List (K × W) → K → Option W
  | [], _ => none
  | (k', v) :: rest, k => if k' = k then some v else alist_get rest k

/-- The loop body of `TextModel._predict_proba` (text_models.py lines
196-203): walk `enumerate(row)`, record `probabilities[decoded_class] =
proba` (front insertion = dict update) and replace the running best class
only when `proba > probabilities.get(top_class, -1.0)`.  `dec i` is the
composition `self._label_encoder.decode([self._class_encoder
.inverse_transform([i])[0]])[0]` that turns a class index into a decoded
label.  The `class_index = row.argmax()` line of the source is a dead
store (the loop variable overwrites it immediately) and is omitted. -/
def predictAux {L : Type} [DecidableEq L] (dec : ℕ → L) :
    List Val → ℕ → List (L × Val) → Option L → List (L × Val) × Option L
  | [], _, probs, top => (probs, top)
  | p :: rest, i, probs, top =>
    let c := dec i
    let probs' := (c, p) :: probs
    let best : Val := match top with
      | none => ((-1 : ℚ) : Val)
      | some t => (alist_get probs' t).getD ((-1 : ℚ) : Val)
    if best < p then predictAux dec rest (i + 1) probs' (some c)
    else predictAux dec rest (i + 1) probs' top

/-- One row of `TextModel._predict_proba`: returns the probability
dictionary and the top class for a single probability row. -/
def predictRow {L : Type} [DecidableEq L] (dec : ℕ → L) (row : List Val) :
    List (L × Val) × Option L :=
  predictAux dec row 0 [] none

/-- `TextModel._predict_proba` over a whole batch: one `(top_class,
probabilities)` pair per row of the predictor output. -/
def predict_proba_rows {L : Type} [DecidableEq L] (dec : ℕ → L)
    (rows : List (List Val)) : List (Option L × List (L × Val)) :=
  rows.map fun row => ((predictRow dec row).2, (predictRow dec row).1)

/-- `_NEG_INF = -1e10` (text_models.py line 26). -/
def NEG_INF_SENTINEL : ℚ := -(10 ^ 10)

/-- The replacement performed by `TextModel.predict_log_proba` on each
stored value: `if proba == -np.Infinity: probas[label] = _NEG_INF`. -/
def fix_neg_inf (p : Val) : Val :=
  if p = (⊥ : Val) then (NEG_INF_SENTINEL : ℚ) else p

/-- `TextModel.predict_log_proba` after the underlying predictor has
produced `rows`: decode with `_predict_proba`, then replace every
`-np.Infinity` value of every distribution by `_NEG_INF`. -/
def predict_log_proba_rows {L : Type} [DecidableEq L] (dec : ℕ → L)
    (rows : List (List Val)) : List (Option L × List (L × Val)) :=
  (predict_proba_rows dec rows).map fun tp =>
    (tp.1, tp.2.map fun kv => (kv.1, fix_neg_inf kv.2))

/-- Maximum of a list of values, `⊥` for the empty list. -/
def listMax (l : List Val) : Val := l.foldr max ⊥

/-- Pure skeleton of the `_predict_proba` loop once the dictionary reads
are resolved: carry the running best value `m` and the index of the
running best class.  Used to characterise `predictAux`. -/
def scanIdx : List Val → ℕ → Val → Option ℕ → Val × Option ℕ
  | [], _, m, top => (m, top)
  | p :: rest, i, m, top =>
    if m < p then scanIdx rest (i + 1) p (some i)
    else scanIdx rest (i + 1) m top

/-! ## Parameter resolver (`TextModel._convert_params`) -/

/-- A key of a user-supplied `class_weight` dictionary: Python
distinguishes `isinstance(k, int)` keys, which pass through unchanged,
from raw-label keys, which are sent through the class encoder. -/
inductive WKey (L : Type) where
  | int : ℤ → WKey L
  | lbl : L → WKey L
deriving DecidableEq

/-- A parameter dictionary in *single* shape (`is_grid=False`): the two
specially-treated entries (`Option` = key present/absent) plus the
untouched remaining entries, abstracted as `R`. -/
structure ParamsSingle (L R : Type) where
  class_weight : Option (List (WKey L × ℚ))
  class_bias : Option ℚ
  rest : R
deriving DecidableEq

/-- A parameter dictionary in *grid* shape (`is_grid=True`): each
specially-treated value is a list of candidates. -/
structure ParamsGrid (L R : Type) where
  class_weight : Option (List (List (WKey L × ℚ)))
  class_bias : Option (List ℚ)
  rest : R
deriving DecidableEq

/-- The dict comprehension of text_models.py lines 258-259: translate
each weight key (`int` keys unchanged, raw labels through
`self._class_encoder.transform`), keep each value as provided. -/
def translate_cw {L : Type} (transform : L → ℕ) (cw_dict : List (WKey L × ℚ)) :
    List (WKey L × ℚ) :=
  cw_dict.map fun kv =>
    (match kv.1 with
     | WKey.int n => WKey.int n
     | WKey.lbl k => WKey.int ((transform k : ℕ) : ℤ), kv.2)

/-- `numpy.bincount` restricted to what the source feeds it: occurrence
counts of `0, 1, ..., max y` for a nonempty integer list, the empty array
for the empty list. -/
def bincount (y : List ℕ) : List ℕ :=
  match y with
  | [] => []
  | _ :: _ => (List.range (y.foldr max 0 + 1)).map fun c => y.count c

/-- The weight dictionary built for one `class_bias` candidate
(text_models.py lines 268-273): `balanced_w = len(y)/(len(classes)*count)`
per `bincount` entry, zipped with `range(len(classes))`, then
interpolated as `(1 - class_bias) + class_bias * w`. -/
def bias_weight_map (L : Type) (y : List ℕ) (num_classes : ℕ)
    (class_bias : ℚ) : List (WKey L × ℚ) :=
  let class_count := bincount y
  let balanced_w := class_count.map fun (c : ℕ) =>
    ((y.length : ℚ) / ((num_classes : ℚ) * (c : ℚ)))
  let balanced_tuples := (List.range num_classes).zip balanced_w
  balanced_tuples.map fun cw =>
    (WKey.int ((cw.1 : ℕ) : ℤ), (1 - class_bias) + class_bias * cw.2)

/-- `TextModel._convert_params` with `is_grid=False` (value shapes are
scalar; the source wraps them in a singleton list and unwraps `[0]`). -/
def convert_params_single {L R : Type} (transform : L → ℕ) (y : List ℕ)
    (classes : List L) (pd : ParamsSingle L R) : ParamsSingle L R :=
  match pd.class_weight with
  | some cw => { pd with class_weight := some (translate_cw transform cw) }
  | none =>
    match pd.class_bias with
    | some b =>
      { pd with
        class_weight := some (bias_weight_map L y classes.length b),
        class_bias := none }
    | none => pd

/-- `TextModel._convert_params` with `is_grid=True` (each value is a list
of candidates, one converted weight dictionary per candidate). -/
def convert_params_grid {L R : Type} (transform : L → ℕ) (y : List ℕ)
    (classes : List L) (pd : ParamsGrid L R) : ParamsGrid L R :=
  match pd.class_weight with
  | some raw_weights =>
    { pd with class_weight := some (raw_weights.map (translate_cw transform)) }
  | none =>
    match pd.class_bias with
    | some raw_bias =>
      { pd with
        class_weight := some (raw_bias.map (bias_weight_map L y classes.length)),
        class_bias := none }
    | none => pd

/-- References to Python dictionary objects. -/
abbrev Ref := ℕ

/-- The heap of parameter dictionaries, so that the in-place mutation
performed by `_convert_params` (and observed by `fit`'s caller) is
expressible. -/
abbrev Store (P : Type) := Ref → P

/-- `_convert_params` as the caller sees it at the object level: the
dictionary behind `ρ` is rewritten in place and the *same* reference is
returned (`return param_grid`). -/
def convert_params_ref {L R : Type} (transform : L → ℕ) (y : List ℕ)
    (classes : List L) (ρ : Ref) (σ : Store (ParamsSingle L R)) :
    Ref × Store (ParamsSingle L R) :=
  (ρ, Function.update σ ρ (convert_params_single transform y classes (σ ρ)))

/-! ## Serialization (`TextModel.__getstate__`) -/

/-- Modelled from the spec: the resource-name constant `WORD_FREQ_RSC`
(the word-frequency table) is imported from the repository's `helpers`
module, which is not part of the excerpt; only its identity as a fixed
name distinct from `QUERY_FREQ_RSC` matters. -/
def WORD_FREQ_RSC : String := "w_freq"

/-- Modelled from the spec: the resource-name constant `QUERY_FREQ_RSC`
(the query-frequency table) from the repository's `helpers` module. -/
def QUERY_FREQ_RSC : String := "q_freq"

/-- The attribute dictionary (`self.__dict__`) of a model instance:
the `_resources` cache (a dict from resource name to resource) and all
remaining attributes, abstracted as `A`. -/
structure ModelAttrs (Rsc A : Type) where
  _resources : List (String × Rsc)
  other : A
deriving DecidableEq

/-- `TextModel.__getstate__` (text_models.py lines 57-67): copy
`self.__dict__` and replace `_resources` by the two-entry whitelist,
each entry defaulting to the empty mapping (`emptyRsc`) when absent. -/
def TextModel_getstate {Rsc A : Type} (emptyRsc : Rsc)
    (st : ModelAttrs Rsc A) : ModelAttrs Rsc A :=
  { st with
    _resources :=
      [(WORD_FREQ_RSC, (alist_get st._resources WORD_FREQ_RSC).getD emptyRsc),
       (QUERY_FREQ_RSC, (alist_get st._resources QUERY_FREQ_RSC).getD emptyRsc)] }

/-! ## Feature pipeline (`TextModel._preprocess_data`,
`TextModel.get_feature_matrix`) -/

/-- The fitted/fittable pipeline collaborators, abstracted: the class
encoder (`SKLabelEncoder`), the vectorizer (`DictVectorizer`), the
optional scaler and the optional selector, each with the scikit-learn
`fit_transform`/`transform` contract.  `Feats` is a batch of extracted
feature maps, `M` the numeric feature matrix. -/
structure PipeStages (Feats M CE V Sc Se : Type) where
  ceFitTransform : CE → Option (List ℕ) → CE × List ℕ
  vFitTransform : V → Feats → V × M
  vTransform : V → Feats → M
  scFitTransform : Sc → M → Sc × M
  scTransform : Sc → M → M
  seFitTransform : Se → M → List ℕ → Se × M
  seTransform : Se → M → M

/-- The pipeline-owned attributes of a `TextModel` instance
(`_class_encoder`, `_feat_vectorizer`, `_feat_scaler`, `_feat_selector`);
`none` models an unconfigured scaler/selector. -/
structure PipeState (CE V Sc Se : Type) where
  class_encoder : CE
  feat_vectorizer : V
  feat_scaler : Option Sc
  feat_selector : Option Se
deriving DecidableEq

/-- `TextModel._preprocess_data` (text_models.py lines 227-243): in fit
mode fit-and-apply class encoder, vectorizer, then scaler and selector
when configured (the selector fitted with the encoded labels); in
transform mode apply the previously fitted stages and return `y`
untouched. -/
def preprocess_data {Feats M CE V Sc Se : Type}
    (S : PipeStages Feats M CE V Sc Se) (st : PipeState CE V Sc Se)
    (X : Feats) (y : Option (List ℕ)) (fit : Bool) :
    PipeState CE V Sc Se × M × Option (List ℕ) :=
  if fit then
    let ce := S.ceFitTransform st.class_encoder y
    let v := S.vFitTransform st.feat_vectorizer X
    let sc : Option Sc × M := match st.feat_scaler with
      | some sc => ((some (S.scFitTransform sc v.2).1), (S.scFitTransform sc v.2).2)
      | none => (none, v.2)
    let se : Option Se × M := match st.feat_selector with
      | some se => ((some (S.seFitTransform se sc.2 ce.2).1), (S.seFitTransform se sc.2 ce.2).2)
      | none => (none, sc.2)
    (⟨ce.1, v.1, sc.1, se.1⟩, se.2, some ce.2)
  else
    let X1 := S.vTransform st.feat_vectorizer X
    let X2 := match st.feat_scaler with
      | some sc => S.scTransform sc X1
      | none => X1
    let X3 := match st.feat_selector with
      | some se => S.seTransform se X2
      | none => X2
    (st, X3, y)

/-- `TextModel.get_feature_matrix` (text_models.py lines 208-225):
extract one feature map per example, record `groups = [0, 1, ...]`, and
preprocess. -/
def get_feature_matrix {E FR M CE V Sc Se : Type}
    (S : PipeStages (List FR) M CE V Sc Se) (extract : E → FR)
    (st : PipeState CE V Sc Se) (examples : List E) (y : Option (List ℕ))
    (fit : Bool) : PipeState CE V Sc Se × M × Option (List ℕ) × List ℕ :=
  let feats := examples.map extract
  let groups := List.range examples.length
  let r := preprocess_data S st feats y fit
  (r.1, r.2.1, r.2.2, groups)

/-! ## Trainer (`TextModel.fit`) -/

/-- The four recognized classifier-type strings (text_models.py
lines 29-32). -/
def LOG_REG_TYPE : String := "logreg"

/-- `DECISION_TREE_TYPE = "dtree"`. -/
def DECISION_TREE_TYPE : String := "dtree"

/-- `RANDOM_FOREST_TYPE = "rforest"`. -/
def RANDOM_FOREST_TYPE : String := "rforest"

/-- `SVM_TYPE = "svm"`. -/
def SVM_TYPE : String := "svm"

/-- The classifier classes the constructor lookup can return. -/
inductive ClfConstructor where
  | LogisticRegression
  | DecisionTreeClassifier
  | RandomForestClassifier
  | SVC
deriving DecidableEq

/-- Errors a training call can raise: `ValueError` with its message
(from `_get_model_constructor`), or the `TypeError` Python would raise
when unpacking absent parameters. -/
inductive FitError where
  | valueError : String → FitError
  | typeError : FitError
deriving DecidableEq

/-- `TextModel._get_model_constructor` (text_models.py lines 69-79):
dictionary lookup on the configured classifier type; an unrecognized
type raises `ValueError('{}: Classifier type {!r} not recognized')`. -/
def get_model_constructor (className : String) (classifier_type : String) :
    Except FitError ClfConstructor :=
  if classifier_type = LOG_REG_TYPE then .ok .LogisticRegression
  else if classifier_type = DECISION_TREE_TYPE then .ok .DecisionTreeClassifier
  else if classifier_type = RANDOM_FOREST_TYPE then .ok .RandomForestClassifier
  else if classifier_type = SVM_TYPE then .ok .SVC
  else .error (.valueError
    (className ++ ": Classifier type '" ++ classifier_type ++ "' not recognized"))

/-- The slice of the model configuration `fit` consults: the classifier
type, the configured default parameter dictionary (a reference, possibly
absent) and whether a parameter-selection specification is present. -/
structure TMConfig where
  classifier_type : String
  params : Option Ref
  param_selection : Bool
deriving DecidableEq

/-- The fitted state of a `TextModel`: the pipeline attributes plus
`_clf` and `_current_params` (`none` = still unfit). `_current_params`
is a dictionary reference, so that aliasing with the caller's dictionary
is expressible. -/
structure TMState (CE V Sc Se Clf : Type) extends PipeState CE V Sc Se where
  clf : Option Clf
  current_params : Option Ref
deriving DecidableEq

/-- The external collaborators `fit` consumes, per spec §6: the feature
extractor, the label encoder (`encode`), the class encoder's
`transform`/`classes_` used by `_convert_params`, the scikit-learn
`model_class(**params).fit(X, y)` black box, and cross-validated search
(`_fit_cv`, externally defined; it may allocate its winning parameter
dictionary, hence it also threads the store). -/
structure TMExt (E L FR M CE V Sc Se Clf R : Type) where
  stages : PipeStages (List FR) M CE V Sc Se
  extract : E → FR
  encode : List L → List ℕ
  ceTransform : CE → ℕ → ℕ
  ceClasses : CE → List ℕ
  mkFitClf : ClfConstructor → ParamsSingle ℕ R → M → List ℕ → Clf
  fit_cv : M → List ℕ → List ℕ → Store (ParamsSingle ℕ R) →
    Clf × Ref × Store (ParamsSingle ℕ R)

/-- `TextModel.fit` (text_models.py lines 104-148) together with the
`_fit` helper it calls on the direct path (lines 157-168).  The random
shuffle becomes the explicit index permutation `perm`; `dE`/`dL` are the
defaults of the (always in-range) list indexing.  Steps, in source
order: resolve `params or self.config.params`; shuffle; return `self`
untouched when at most one distinct label remains; encode labels and
build the fit-mode feature matrix; then either fit directly —
`_convert_params` mutates the caller's dictionary in place, the model
constructor is looked up (raising on unrecognized types), and
`_current_params` is set to the *same reference* that was passed in — or
hand over to cross-validated search. -/
def TextModel_fit {E L FR M CE V Sc Se Clf R : Type} [DecidableEq L]
    (ext : TMExt E L FR M CE V Sc Se Clf R) (cfg : TMConfig) (dE : E) (dL : L)
    (st : TMState CE V Sc Se Clf) (σ : Store (ParamsSingle ℕ R))
    (examples : List E) (labels : List L) (params? : Option Ref)
    (perm : List ℕ) :
    Except FitError (TMState CE V Sc Se Clf) × Store (ParamsSingle ℕ R) :=
  let params : Option Ref := match params? with
    | some ρ => some ρ
    | none => cfg.params
  let skip_param_selection : Bool := params.isSome || !cfg.param_selection
  let examples' := perm.map fun i => examples.getD i dE
  let labels' := perm.map fun i => labels.getD i dL
  if labels'.toFinset.card ≤ 1 then (.ok st, σ)
  else
    let yEnc := ext.encode labels'
    let r := get_feature_matrix ext.stages ext.extract st.toPipeState
      examples' (some yEnc) true
    let pipe' := r.1
    let X := r.2.1
    let y := (r.2.2.1).getD []
    let groups := r.2.2.2
    if skip_param_selection then
      match params with
      | some ρ =>
        let cr := convert_params_ref (fun k => ext.ceTransform pipe'.class_encoder k)
          y (ext.ceClasses pipe'.class_encoder) ρ σ
        match get_model_constructor "TextModel" cfg.classifier_type with
        | .ok ctor =>
          (.ok { toPipeState := pipe',
                 clf := some (ext.mkFitClf ctor (cr.2 cr.1) X y),
                 current_params := some ρ }, cr.2)
        | .error e => (.error e, cr.2)
      | none => (.error .typeError, σ)
    else
      let cv := ext.fit_cv X y groups σ
      (.ok { toPipeState := pipe', clf := some cv.1,
             current_params := some cv.2.1 }, cv.2.2)

/-! ## Concrete instantiation used to exercise the generic theorems -/

/-- A concrete pipeline-stage bundle over small types: each stage tags
the matrix (a list of naturals) with its own marker so that stage order
is observable. -/
def stagesEx : PipeStages (List ℕ) (List ℕ) (List ℕ) Unit Unit Unit where
  ceFitTransform := fun _ y => (y.getD [], y.getD [])
  vFitTransform := fun u X => (u, 0 :: X)
  vTransform := fun _ X => 0 :: X
  scFitTransform := fun u X => (u, 1 :: X)
  scTransform := fun _ X => 1 :: X
  seFitTransform := fun u X _ => (u, 2 :: X)
  seTransform := fun _ X => 2 :: X

/-- A concrete external-collaborator bundle for exercising
`TextModel_fit`. -/
def extEx : TMExt ℕ ℕ ℕ (List ℕ) (List ℕ) Unit Unit Unit ℕ Unit where
  stages := stagesEx
  extract := fun e => e
  encode := fun ls => ls
  ceTransform := fun _ k => k
  ceClasses := fun ce => ce.dedup
  mkFitClf := fun _ _ _ _ => 1
  fit_cv := fun _ _ _ σ => (2, 0, σ)

/-- A concrete still-unfit model state. -/
def stEx : TMState (List ℕ) Unit Unit Unit ℕ :=
  { class_encoder := [], feat_vectorizer := (), feat_scaler := none,
    feat_selector := none, clf := none, current_params := none }

/-- A concrete parameter dictionary holding a `class_weight` entry with
one raw-label key. -/
def pdEx : ParamsSingle ℕ Unit :=
  { class_weight := some [(WKey.lbl 5, 2)], class_bias := none, rest := () }

/-- A concrete store: every reference holds `pdEx`. -/
def σEx : Store (ParamsSingle ℕ Unit) := fun _ => pdEx

/-- A configuration with an unrecognized classifier type. -/
def cfgBogus : TMConfig :=
  { classifier_type := "bogus", params := none, param_selection := false }

/-- A configuration with the recognized `logreg` classifier type. -/
def cfgLogreg : TMConfig :=
  { classifier_type := LOG_REG_TYPE, params := none, param_selection := false }

/-- A concrete probability row with an exact tie (indices 1 and 2). -/
def rowEx : List Val :=
  [((2 : ℚ) : Val), ((7 : ℚ) : Val), ((7 : ℚ) : Val), ((1 : ℚ) : Val)]

/-- A concrete log-probability row whose values are all at or below the
`-1.0` running-best default. -/
def rowNegEx : List Val := [(⊥ : Val), ((-2 : ℚ) : Val)]

/-- A concrete batch containing a negative-infinity log-probability. -/
def rowsLogEx : List (List Val) := [[(⊥ : Val), ((1 : ℚ) : Val)]]

/-- A concrete encoded-label list: class 0 appears once, class 1 three
times. -/
def yEx : List ℕ := [0, 1, 1, 1]

/-- A concrete `classes_` array of two raw labels. -/
def classesEx : List ℕ := [10, 20]

/-- A concrete `class_weight` dictionary mixing an int key and a
raw-label key. -/
def cwEx : List (WKey ℕ × ℚ) := [(WKey.int 5, 2), (WKey.lbl 7, 3)]

/-- A concrete attribute dictionary with one whitelisted and one
non-whitelisted resource. -/
def attrsEx : ModelAttrs ℕ ℕ :=
  { _resources := [("gaz", 3), ("w_freq", 5)], other := 9 }

/-- A concrete pipeline state with both a scaler and a selector
configured. -/
def stFullPipeEx : PipeState (List ℕ) Unit Unit Unit :=
  { class_encoder := [], feat_vectorizer := (),
    feat_scaler := some (), feat_selector := some () }

/-! ## Lemmas about the probability-decoding loop -/

theorem le_listMax_of_mem : ∀ (l : List Val) (p : Val), p ∈ l → p ≤ listMax l := by
  intro l
  induction l with
  | nil => intro p h; cases h
  | cons a t ih =>
    intro p h
    rcases List.mem_cons.mp h with rfl | h
    · exact le_max_left _ _
    · exact le_trans (ih p h) (le_max_right _ _)

theorem listMax_mem : ∀ (l : List Val), l ≠ [] → listMax l ∈ l := by
  intro l
  induction l with
  | nil => intro h; exact absurd rfl h
  | cons a t ih =>
    intro _
    cases t with
    | nil =>
      have : listMax [a] = a := max_eq_left bot_le
      rw [this]; exact List.mem_cons_self a _
    | cons b t' =>
      rcases le_total (listMax (b :: t')) a with h | h
      · have hM : listMax (a :: b :: t') = a := max_eq_left h
        rw [hM]; exact List.mem_cons_self a _
      · have hM : listMax (a :: b :: t') = listMax (b :: t') := max_eq_right h
        rw [hM]; exact List.mem_cons_of_mem _ (ih (by simp))

theorem findIdx_get?_of_mem :
    ∀ (l : List Val) (M : Val), M ∈ l →
      l.get? (l.findIdx fun p => decide (p = M)) = some M := by
  intro l M
  induction l with
  | nil => intro h; cases h
  | cons a t ih =>
    intro h
    by_cases ha : a = M
    · subst ha
      simp [List.findIdx_cons]
    · have hm : M ∈ t := by
        rcases List.mem_cons.mp h with rfl | h'
        · exact absurd rfl ha
        · exact h'
      have hd : (decide (a = M)) = false := decide_eq_false ha
      simp only [List.findIdx_cons, hd, cond_false, List.get?_cons_succ]
      exact ih hm

theorem scanIdx_const_of_le :
    ∀ (rest : List Val) (i : ℕ) (m : Val) (top : Option ℕ),
      (∀ p ∈ rest, p ≤ m) → scanIdx rest i m top = (m, top) := by
  intro rest
  induction rest with
  | nil => intro i m top _; rfl
  | cons p r ih =>
    intro i m top h
    have hnp : ¬ m < p := not_lt.mpr (h p (List.mem_cons_self _ _))
    simp only [scanIdx, if_neg hnp]
    exact ih _ _ _ fun q hq => h q (List.mem_cons_of_mem _ hq)

theorem scanIdx_of_lt_max :
    ∀ (rest : List Val) (i : ℕ) (m : Val) (top : Option ℕ),
      m < listMax rest →
      scanIdx rest i m top
        = (listMax rest, some (i + rest.findIdx fun p => decide (p = listMax rest))) := by
  intro rest
  induction rest with
  | nil => intro i m top h; exact absurd h (not_lt_bot)
  | cons p r ih =>
    intro i m top h
    rcases le_or_lt (listMax r) p with hle | hlt
    · have hM : listMax (p :: r) = p := max_eq_left hle
      have hmp : m < p := by rw [hM] at h; exact h
      have hall : ∀ q ∈ r, q ≤ p := fun q hq => (le_listMax_of_mem r q hq).trans hle
      simp only [scanIdx, if_pos hmp]
      rw [scanIdx_const_of_le r (i + 1) p (some i) hall]
      simp [List.findIdx_cons, hM]
    · have hM : listMax (p :: r) = listMax r := max_eq_right hlt.le
      have hne : (decide (p = listMax r)) = false :=
        decide_eq_false (ne_of_lt hlt)
      have hfind : ((p :: r).findIdx fun q => decide (q = listMax r))
          = (r.findIdx fun q => decide (q = listMax r)) + 1 := by
        simp only [List.findIdx_cons, hne, cond_false]
      simp only [scanIdx]
      by_cases hmp : m < p
      · rw [if_pos hmp, ih (i + 1) p (some i) (by rw [hM] at h; exact hlt)]
        rw [hM, hfind]
        rw [show (i + 1) + (r.findIdx fun q => decide (q = listMax r))
            = i + ((r.findIdx fun q => decide (q = listMax r)) + 1) from by omega]
      · rw [if_neg hmp, ih (i + 1) m top (by rw [hM] at h; exact h)]
        rw [hM, hfind]
        rw [show (i + 1) + (r.findIdx fun q => decide (q = listMax r))
            = i + ((r.findIdx fun q => decide (q = listMax r)) + 1) from by omega]

theorem predictAux_eq_scanIdx {L : Type} [DecidableEq L] (dec : ℕ → L)
    (hinj : Function.Injective dec) :
    ∀ (rest : List Val) (i : ℕ) (probs : List (L × Val)) (topIdx : Option ℕ) (m : Val),
      (topIdx = none → m = ((-1 : ℚ) : Val)) →
      (∀ k, topIdx = some k → k < i ∧ alist_get probs (dec k) = some m) →
      (∀ j, i ≤ j → alist_get probs (dec j) = none) →
      (predictAux dec rest i probs (topIdx.map dec)).2
          = (scanIdx rest i m topIdx).2.map dec ∧
      (∀ k, (scanIdx rest i m topIdx).2 = some k →
        alist_get (predictAux dec rest i probs (topIdx.map dec)).1 (dec k)
          = some (scanIdx rest i m topIdx).1) := by
  intro rest
  induction rest with
  | nil =>
    intro i probs topIdx m h1 h2 h3
    exact ⟨rfl, fun k hk => (h2 k hk).2⟩
  | cons p r ih =>
    intro i probs topIdx m h1 h2 h3
    have hfresh : ∀ j, i + 1 ≤ j → alist_get ((dec i, p) :: probs) (dec j) = none := by
      intro j hj
      have hne : dec i ≠ dec j := fun hd => by have := hinj hd; omega
      simp only [alist_get, if_neg hne]
      exact h3 j (by omega)
    have hbest :
        (match topIdx.map dec with
          | none => ((-1 : ℚ) : Val)
          | some t => (alist_get ((dec i, p) :: probs) t).getD ((-1 : ℚ) : Val)) = m := by
      cases topIdx with
      | none => exact (h1 rfl).symm
      | some k =>
        have hk := h2 k rfl
        have hne : dec i ≠ dec k := fun hd => by have := hinj hd; omega
        show (alist_get ((dec i, p) :: probs) (dec k)).getD ((-1 : ℚ) : Val) = m
        simp only [alist_get, if_neg hne, hk.2, Option.getD_some]
    simp only [predictAux, scanIdx]
    rw [hbest]
    by_cases hmp : m < p
    · simp only [if_pos hmp]
      have h2' : ∀ k, (some i : Option ℕ) = some k →
          k < i + 1 ∧ alist_get ((dec i, p) :: probs) (dec k) = some p := by
        intro k hk
        cases hk
        exact ⟨by omega, by simp [alist_get]⟩
      exact ih (i + 1) ((dec i, p) :: probs) (some i) p (fun h => nomatch h) h2' hfresh
    · simp only [if_neg hmp]
      have h2' : ∀ k, topIdx = some k →
          k < i + 1 ∧ alist_get ((dec i, p) :: probs) (dec k) = some m := by
        intro k hk
        obtain ⟨hki, hlk⟩ := h2 k hk
        have hne : dec i ≠ dec k := fun hd => by have := hinj hd; omega
        exact ⟨by omega, by simp only [alist_get, if_neg hne]; exact hlk⟩
      exact ih (i + 1) ((dec i, p) :: probs) topIdx m h1 h2' hfresh

theorem predictAux_probs_sub {L : Type} [DecidableEq L] (dec : ℕ → L) :
    ∀ (rest : List Val) (i : ℕ) (probs : List (L × Val)) (top : Option L)
      (kv : L × Val), kv ∈ (predictAux dec rest i probs top).1 →
      kv ∈ probs ∨ kv.2 ∈ rest := by
  intro rest
  induction rest with
  | nil => intro i probs top kv h; exact Or.inl h
  | cons p r ih =>
    intro i probs top kv h
    simp only [predictAux] at h
    have step : kv ∈ (dec i, p) :: probs ∨ kv.2 ∈ r → kv ∈ probs ∨ kv.2 ∈ p :: r := by
      rintro (hm | hm)
      · rcases List.mem_cons.mp hm with rfl | hm'
        · exact Or.inr (List.mem_cons_self _ _)
        · exact Or.inl hm'
      · exact Or.inr (List.mem_cons_of_mem _ hm)
    split at h
    · exact step (ih _ _ _ kv h)
    · exact step (ih _ _ _ kv h)

theorem predictAux_top_none {L : Type} [DecidableEq L] (dec : ℕ → L) :
    ∀ (rest : List Val) (i : ℕ) (probs : List (L × Val)),
      (∀ p ∈ rest, p ≤ ((-1 : ℚ) : Val)) →
      (predictAux dec rest i probs none).2 = none := by
  intro rest
  induction rest with
  | nil => intro i probs _; rfl
  | cons p r ih =>
    intro i probs h
    have hnp : ¬ ((-1 : ℚ) : Val) < p := not_lt.mpr (h p (List.mem_cons_self _ _))
    simp only [predictAux, if_neg hnp]
    exact ih _ _ fun q hq => h q (List.mem_cons_of_mem _ hq)

/-! ## Claim C2 -/

/-- C2: For every probability row decoded by `_predict_proba`, the
returned top label is the decoded label whose class index holds the
maximum probability in the returned distribution, and on exact ties the
first index encountered wins (a later class with an equal probability
does not replace the current best).  The hypothesis restricts to rows
with some value above the `-1.0` running-best default, which holds for
every genuine probability row; `hinj` states that distinct class indices
decode to distinct labels, the spec's bijectivity of the encoders. -/
theorem predict_proba_top_is_first_argmax {L : Type} [DecidableEq L]
    (dec : ℕ → L) (hinj : Function.Injective dec) (row : List Val)
    (hpos : ∃ p ∈ row, ((-1 : ℚ) : Val) < p) :
    (predictRow dec row).2
        = some (dec (row.findIdx fun p => decide (p = listMax row))) ∧
    alist_get (predictRow dec row).1
        (dec (row.findIdx fun p => decide (p = listMax row)))
        = some (listMax row) ∧
    row.get? (row.findIdx fun p => decide (p = listMax row)) = some (listMax row) ∧
    ∀ kv ∈ (predictRow dec row).1, kv.2 ≤ listMax row := by
  obtain ⟨p, hp, hpgt⟩ := hpos
  have hmax : ((-1 : ℚ) : Val) < listMax row :=
    lt_of_lt_of_le hpgt (le_listMax_of_mem row p hp)
  have heq := predictAux_eq_scanIdx dec hinj row 0 [] none ((-1 : ℚ) : Val)
    (fun _ => rfl) (fun k hk => by cases hk) (fun j _ => rfl)
  have hscan := scanIdx_of_lt_max row 0 ((-1 : ℚ) : Val) none hmax
  rw [hscan] at heq
  refine ⟨?_, ?_, ?_, ?_⟩
  · have h := heq.1
    simpa [predictRow, Nat.zero_add] using h
  · have h := heq.2 (0 + (row.findIdx fun p => decide (p = listMax row))) rfl
    simpa [predictRow, Nat.zero_add] using h
  · exact findIdx_get?_of_mem row (listMax row) (listMax_mem row (List.ne_nil_of_mem hp))
  · intro kv hkv
    rcases predictAux_probs_sub dec row 0 [] none kv hkv with h | h
    · cases h
    · exact le_listMax_of_mem row kv.2 h

/-- Witness for C2 at a concrete row with an exact tie at indices 1 and
2: the first of the two tied maxima wins. -/
theorem predict_proba_top_is_first_argmax_witness :
    (Function.Injective (fun n : ℕ => n) ∧
      ∃ p ∈ rowEx, ((-1 : ℚ) : Val) < p) ∧
    ((predictRow (fun n : ℕ => n) rowEx).2
        = some (rowEx.findIdx fun p => decide (p = listMax rowEx)) ∧
      alist_get (predictRow (fun n : ℕ => n) rowEx).1
        (rowEx.findIdx fun p => decide (p = listMax rowEx)) = some (listMax rowEx) ∧
      rowEx.get? (rowEx.findIdx fun p => decide (p = listMax rowEx))
        = some (listMax rowEx) ∧
      ∀ kv ∈ (predictRow (fun n : ℕ => n) rowEx).1, kv.2 ≤ listMax rowEx) :=
  ⟨⟨fun _ _ h => h, by decide⟩,
   predict_proba_top_is_first_argmax (fun n : ℕ => n) (fun _ _ h => h) rowEx (by decide)⟩

/-! ## Claim C10 -/

/-- C10: The running-best comparison of `_predict_proba` uses the
default threshold `-1.0` with an initial `top_class` of `None`, so on a
row in which every value is at most `-1.0` no class is ever selected and
the returned top label is `None`; in particular `predict_log_proba` can
return `None` as an example's top label. -/
theorem predict_all_below_threshold_top_none {L : Type} [DecidableEq L]
    (dec : ℕ → L) (row : List Val)
    (h : ∀ p ∈ row, p ≤ ((-1 : ℚ) : Val)) :
    (predictRow dec row).2 = none ∧
    (predict_log_proba_rows dec [row]).map Prod.fst = [none] := by
  have h1 : (predictRow dec row).2 = none := predictAux_top_none dec row 0 [] h
  refine ⟨h1, ?_⟩
  simp [predict_log_proba_rows, predict_proba_rows, h1]

/-- Witness for C10 at a concrete all-below-threshold log-probability
row. -/
theorem predict_all_below_threshold_top_none_witness :
    (∀ p ∈ rowNegEx, p ≤ ((-1 : ℚ) : Val)) ∧
    ((predictRow (fun _ : ℕ => (0 : ℕ)) rowNegEx).2 = none ∧
      (predict_log_proba_rows (fun _ : ℕ => (0 : ℕ)) [rowNegEx]).map Prod.fst
        = [none]) :=
  ⟨by decide,
   predict_all_below_threshold_top_none (fun _ : ℕ => (0 : ℕ)) rowNegEx (by decide)⟩

/-! ## Claim C3 -/

/-- C3: `predict_log_proba` never returns negative infinity: every
value equal to negative infinity in a decoded distribution is replaced
by exactly the `-1e10` sentinel before being returned, and all other
values are returned unchanged. -/
theorem predict_log_proba_replaces_neg_inf {L : Type} [DecidableEq L]
    (dec : ℕ → L) (rows : List (List Val)) :
    (∀ tp ∈ predict_log_proba_rows dec rows, ∀ kv ∈ tp.2, kv.2 ≠ (⊥ : Val)) ∧
    predict_log_proba_rows dec rows
      = (predict_proba_rows dec rows).map fun tp =>
          (tp.1, tp.2.map fun kv =>
            (kv.1, if kv.2 = (⊥ : Val) then ((NEG_INF_SENTINEL : ℚ) : Val) else kv.2)) := by
  constructor
  · intro tp htp kv hkv
    simp only [predict_log_proba_rows, List.mem_map] at htp
    obtain ⟨tp', _, rfl⟩ := htp
    simp only [List.mem_map] at hkv
    obtain ⟨kv', _, rfl⟩ := hkv
    by_cases hb : kv'.2 = (⊥ : Val)
    · simp only [fix_neg_inf, if_pos hb]
      exact WithBot.coe_ne_bot
    · simp only [fix_neg_inf, if_neg hb]
      exact hb
  · rfl

/-- Witness for C3 at a concrete batch containing a `-∞`
log-probability. -/
theorem predict_log_proba_replaces_neg_inf_witness :
    (∀ tp ∈ predict_log_proba_rows (fun n : ℕ => n) rowsLogEx,
      ∀ kv ∈ tp.2, kv.2 ≠ (⊥ : Val)) ∧
    predict_log_proba_rows (fun n : ℕ => n) rowsLogEx
      = (predict_proba_rows (fun n : ℕ => n) rowsLogEx).map fun tp =>
          (tp.1, tp.2.map fun kv =>
            (kv.1, if kv.2 = (⊥ : Val) then ((NEG_INF_SENTINEL : ℚ) : Val) else kv.2)) :=
  predict_log_proba_replaces_neg_inf (fun n : ℕ => n) rowsLogEx

/-! ## Lemmas about the parameter resolver -/

theorem mem_le_foldr_max : ∀ (l : List ℕ) (b a : ℕ), a ∈ l → a ≤ l.foldr max b := by
  intro l b
  induction l with
  | nil => intro a h; cases h
  | cons x t ih =>
    intro a h
    rcases List.mem_cons.mp h with rfl | h
    · exact le_max_left _ _
    · exact le_trans (ih a h) (le_max_right _ _)

theorem foldr_max_le : ∀ (l : List ℕ) (b c : ℕ), b ≤ c → (∀ a ∈ l, a ≤ c) →
    l.foldr max b ≤ c := by
  intro l b c hb
  induction l with
  | nil => intro _; exact hb
  | cons x t ih =>
    intro h
    exact max_le (h x (List.mem_cons_self _ _))
      (ih fun a ha => h a (List.mem_cons_of_mem _ ha))

theorem bincount_eq (y : List ℕ) (n : ℕ) (h1 : ∀ v ∈ y, v < n)
    (h2 : ∀ c, c < n → c ∈ y) (h3 : 0 < n) :
    bincount y = (List.range n).map fun c => y.count c := by
  cases y with
  | nil => exact absurd (h2 0 h3) (by simp)
  | cons a t =>
    have hub : (a :: t).foldr max 0 ≤ n - 1 :=
      foldr_max_le _ _ _ (by omega) fun x hx => by have := h1 x hx; omega
    have hlb : n - 1 ≤ (a :: t).foldr max 0 :=
      mem_le_foldr_max _ _ _ (h2 (n - 1) (by omega))
    have hn : (a :: t).foldr max 0 + 1 = n := by omega
    simp only [bincount, hn]

theorem zip_map_self {α β : Type} (f : β → α) : ∀ (l : List β),
    l.zip (l.map f) = l.map fun c => (c, f c) := by
  intro l
  induction l with
  | nil => rfl
  | cons a t ih => simp [ih]

theorem bias_weight_map_eq (L : Type) (y : List ℕ) (n : ℕ) (b : ℚ)
    (h1 : ∀ v ∈ y, v < n) (h2 : ∀ c, c < n → c ∈ y) (h3 : 0 < n) :
    bias_weight_map L y n b
      = (List.range n).map fun (c : ℕ) =>
          (WKey.int (c : ℤ),
           (1 - b) + b * ((y.length : ℚ) / ((n : ℚ) * (y.count c : ℚ)))) := by
  simp only [bias_weight_map]
  rw [bincount_eq y n h1 h2 h3, List.map_map, zip_map_self, List.map_map]
  rfl

/-! ## Claim C1 -/

/-- C1: For every fitted class encoding and every class-bias candidate
`b`, the resolver replaces the `class_bias` entry by a `class_weight`
mapping that assigns each class id `c` the weight
`(1 - b) + b * (total / (num_classes * count_c))`; at `b = 0` every
class gets weight exactly `1`, at `b = 1` exactly the balanced weight,
and this holds in grid shape and in single shape.  The hypotheses state
that `y` is a fitted class encoding over `classes`: every encoded id is
in range and every class occurs. -/
theorem convert_params_class_bias_interpolation {L R : Type}
    (transform : L → ℕ) (y : List ℕ) (classes : List L)
    (h1 : ∀ v ∈ y, v < classes.length)
    (h2 : ∀ c, c < classes.length → c ∈ y)
    (h3 : 0 < classes.length) :
    (∀ b : ℚ, bias_weight_map L y classes.length b
        = (List.range classes.length).map fun (c : ℕ) =>
            (WKey.int (c : ℤ),
             (1 - b) + b * ((y.length : ℚ)
                / ((classes.length : ℚ) * (y.count c : ℚ))))) ∧
    bias_weight_map L y classes.length 0
        = (List.range classes.length).map (fun (c : ℕ) => (WKey.int (c : ℤ), (1 : ℚ))) ∧
    bias_weight_map L y classes.length 1
        = (List.range classes.length).map (fun (c : ℕ) =>
            (WKey.int (c : ℤ),
             (y.length : ℚ) / ((classes.length : ℚ) * (y.count c : ℚ)))) ∧
    (∀ (pdg : ParamsGrid L R) (bs : List ℚ),
      pdg.class_weight = none → pdg.class_bias = some bs →
      convert_params_grid transform y classes pdg
        = { pdg with
            class_weight := some (bs.map (bias_weight_map L y classes.length)),
            class_bias := none }) ∧
    (∀ (pds : ParamsSingle L R) (b : ℚ),
      pds.class_weight = none → pds.class_bias = some b →
      convert_params_single transform y classes pds
        = { pds with
            class_weight := some (bias_weight_map L y classes.length b),
            class_bias := none }) := by
  refine ⟨fun b => bias_weight_map_eq L y classes.length b h1 h2 h3, ?_, ?_, ?_, ?_⟩
  · rw [bias_weight_map_eq L y classes.length 0 h1 h2 h3]
    refine List.map_congr_left ?_
    intro c _
    simp
  · rw [bias_weight_map_eq L y classes.length 1 h1 h2 h3]
    refine List.map_congr_left ?_
    intro c _
    simp
  · intro pdg bs hcw hcb
    simp only [convert_params_grid, hcw, hcb]
  · intro pds b hcw hcb
    simp only [convert_params_single, hcw, hcb]

/-- Witness for C1 at the concrete encoding `yEx` over two classes
(counts 1 and 3). -/
theorem convert_params_class_bias_interpolation_witness :
    ((∀ v ∈ yEx, v < classesEx.length) ∧ (∀ c, c < classesEx.length → c ∈ yEx) ∧
      0 < classesEx.length) ∧
    ((∀ b : ℚ, bias_weight_map ℕ yEx classesEx.length b
        = (List.range classesEx.length).map fun (c : ℕ) =>
            (WKey.int (c : ℤ),
             (1 - b) + b * ((yEx.length : ℚ)
                / ((classesEx.length : ℚ) * (yEx.count c : ℚ))))) ∧
    bias_weight_map ℕ yEx classesEx.length 0
        = (List.range classesEx.length).map (fun (c : ℕ) => (WKey.int (c : ℤ), (1 : ℚ))) ∧
    bias_weight_map ℕ yEx classesEx.length 1
        = (List.range classesEx.length).map (fun (c : ℕ) =>
            (WKey.int (c : ℤ),
             (yEx.length : ℚ) / ((classesEx.length : ℚ) * (yEx.count c : ℚ)))) ∧
    (∀ (pdg : ParamsGrid ℕ Unit) (bs : List ℚ),
      pdg.class_weight = none → pdg.class_bias = some bs →
      convert_params_grid (fun l => l) yEx classesEx pdg
        = { pdg with
            class_weight := some (bs.map (bias_weight_map ℕ yEx classesEx.length)),
            class_bias := none }) ∧
    (∀ (pds : ParamsSingle ℕ Unit) (b : ℚ),
      pds.class_weight = none → pds.class_bias = some b →
      convert_params_single (fun l => l) yEx classesEx pds
        = { pds with
            class_weight := some (bias_weight_map ℕ yEx classesEx.length b),
            class_bias := none })) :=
  ⟨⟨by decide, by decide, by decide⟩,
   convert_params_class_bias_interpolation (fun l => l) yEx classesEx
     (by decide) (by decide) (by decide)⟩

/-! ## Claim C7 -/

/-- C7: For every parameter set containing a `class_weight` entry, the
resolver translates each weight mapping's keys from raw label values to
class ids while numeric keys pass through unchanged, the weight values
are left exactly as provided, and this holds in grid shape and single
shape. -/
theorem convert_params_class_weight_key_translation {L R : Type}
    (transform : L → ℕ) (y : List ℕ) (classes : List L) :
    (∀ cw : List (WKey L × ℚ), (translate_cw transform cw).length = cw.length) ∧
    (∀ (cw : List (WKey L × ℚ)) (j : ℕ) (n : ℤ) (v : ℚ),
      cw[j]? = some (WKey.int n, v) →
      (translate_cw transform cw)[j]? = some (WKey.int n, v)) ∧
    (∀ (cw : List (WKey L × ℚ)) (j : ℕ) (l : L) (v : ℚ),
      cw[j]? = some (WKey.lbl l, v) →
      (translate_cw transform cw)[j]?
        = some (WKey.int ((transform l : ℕ) : ℤ), v)) ∧
    (∀ (pdg : ParamsGrid L R) (raws : List (List (WKey L × ℚ))),
      pdg.class_weight = some raws →
      convert_params_grid transform y classes pdg
        = { pdg with class_weight := some (raws.map (translate_cw transform)) }) ∧
    (∀ (pds : ParamsSingle L R) (cw : List (WKey L × ℚ)),
      pds.class_weight = some cw →
      convert_params_single transform y classes pds
        = { pds with class_weight := some (translate_cw transform cw) }) := by
  refine ⟨?_, ?_, ?_, ?_, ?_⟩
  · intro cw
    simp [translate_cw]
  · intro cw j n v h
    simp only [translate_cw, List.getElem?_map, h, Option.map_some']
  · intro cw j l v h
    simp only [translate_cw, List.getElem?_map, h, Option.map_some']
  · intro pdg raws hcw
    simp only [convert_params_grid, hcw]
  · intro pds cw hcw
    simp only [convert_params_single, hcw]

/-- Witness for C7: in `cwEx` the int key `5` passes through unchanged
and the raw-label key `7` is translated by `transform = (· + 10)`, both
with their values kept. -/
theorem convert_params_class_weight_key_translation_witness :
    (cwEx[0]? = some (WKey.int 5, 2) ∧ cwEx[1]? = some (WKey.lbl 7, 3)) ∧
    (translate_cw (fun l : ℕ => l + 10) cwEx)[0]? = some (WKey.int 5, 2) ∧
    (translate_cw (fun l : ℕ => l + 10) cwEx)[1]? = some (WKey.int 17, 3) :=
  ⟨⟨by decide, by decide⟩,
   (convert_params_class_weight_key_translation (R := Unit) (fun l : ℕ => l + 10)
      [] []).2.1 cwEx 0 5 2 (by decide),
   (convert_params_class_weight_key_translation (R := Unit) (fun l : ℕ => l + 10)
      [] []).2.2.1 cwEx 1 7 3 (by decide)⟩

/-! ## Claim C8 -/

/-- C8: The serialized state produced by `__getstate__` equals the full
attribute dictionary except that the resources field is pruned to
exactly the two whitelisted entries — the word-frequency table and the
query-frequency table — each defaulting to an empty mapping when absent,
with every other cached resource dropped; all other fields are
unchanged. -/
theorem getstate_prunes_resources {Rsc A : Type} (emptyRsc : Rsc)
    (st : ModelAttrs Rsc A) :
    (TextModel_getstate emptyRsc st).other = st.other ∧
    (TextModel_getstate emptyRsc st)._resources
      = [(WORD_FREQ_RSC, (alist_get st._resources WORD_FREQ_RSC).getD emptyRsc),
         (QUERY_FREQ_RSC, (alist_get st._resources QUERY_FREQ_RSC).getD emptyRsc)] ∧
    alist_get (TextModel_getstate emptyRsc st)._resources WORD_FREQ_RSC
      = some ((alist_get st._resources WORD_FREQ_RSC).getD emptyRsc) ∧
    alist_get (TextModel_getstate emptyRsc st)._resources QUERY_FREQ_RSC
      = some ((alist_get st._resources QUERY_FREQ_RSC).getD emptyRsc) ∧
    ∀ k : String, k ≠ WORD_FREQ_RSC → k ≠ QUERY_FREQ_RSC →
      alist_get (TextModel_getstate emptyRsc st)._resources k = none := by
  refine ⟨rfl, rfl, ?_, ?_, ?_⟩
  · simp [TextModel_getstate, alist_get]
  · simp [TextModel_getstate, alist_get, WORD_FREQ_RSC, QUERY_FREQ_RSC]
  · intro k hw hq
    simp only [TextModel_getstate, alist_get]
    rw [if_neg fun h => hw h.symm, if_neg fun h => hq h.symm]

/-- Witness for C8: the non-whitelisted `"gaz"` resource of `attrsEx`
is dropped, the whitelisted word-frequency entry survives, and the other
attributes are unchanged. -/
theorem getstate_prunes_resources_witness :
    (("gaz" : String) ≠ WORD_FREQ_RSC ∧ ("gaz" : String) ≠ QUERY_FREQ_RSC) ∧
    alist_get (TextModel_getstate 0 attrsEx)._resources "gaz" = none ∧
    alist_get (TextModel_getstate 0 attrsEx)._resources WORD_FREQ_RSC = some 5 ∧
    (TextModel_getstate 0 attrsEx).other = 9 :=
  ⟨⟨by decide, by decide⟩,
   (getstate_prunes_resources 0 attrsEx).2.2.2.2 "gaz" (by decide) (by decide),
   (getstate_prunes_resources 0 attrsEx).2.2.1,
   (getstate_prunes_resources 0 attrsEx).1⟩

/-! ## Claim C6 -/

/-- C6: The feature pipeline applies its stages in the fixed order
vectorize → scale → select: in fit mode each configured stage is fitted
and applied in that order (the selector fitted using the labels), in
transform mode the same stages are applied using only previously-fitted
state with labels neither required nor produced (the state is untouched
and `y` passes through), and an unconfigured scaler or selector is
skipped as a no-op stage in both modes. -/
theorem preprocess_data_stage_order {Feats M CE V Sc Se : Type}
    (S : PipeStages Feats M CE V Sc Se) (st : PipeState CE V Sc Se)
    (X : Feats) (y : Option (List ℕ)) :
    (preprocess_data S st X y false).1 = st ∧
    (preprocess_data S st X y false).2.2 = y ∧
    (st.feat_scaler = none → st.feat_selector = none →
      (preprocess_data S st X y false).2.1 = S.vTransform st.feat_vectorizer X) ∧
    (∀ sc, st.feat_scaler = some sc → st.feat_selector = none →
      (preprocess_data S st X y false).2.1
        = S.scTransform sc (S.vTransform st.feat_vectorizer X)) ∧
    (∀ se, st.feat_scaler = none → st.feat_selector = some se →
      (preprocess_data S st X y false).2.1
        = S.seTransform se (S.vTransform st.feat_vectorizer X)) ∧
    (∀ sc se, st.feat_scaler = some sc → st.feat_selector = some se →
      (preprocess_data S st X y false).2.1
        = S.seTransform se (S.scTransform sc (S.vTransform st.feat_vectorizer X))) ∧
    (st.feat_scaler = none → st.feat_selector = none →
      preprocess_data S st X y true
        = ({ class_encoder := (S.ceFitTransform st.class_encoder y).1,
             feat_vectorizer := (S.vFitTransform st.feat_vectorizer X).1,
             feat_scaler := none, feat_selector := none },
           (S.vFitTransform st.feat_vectorizer X).2,
           some (S.ceFitTransform st.class_encoder y).2)) ∧
    (∀ sc se, st.feat_scaler = some sc → st.feat_selector = some se →
      preprocess_data S st X y true
        = ({ class_encoder := (S.ceFitTransform st.class_encoder y).1,
             feat_vectorizer := (S.vFitTransform st.feat_vectorizer X).1,
             feat_scaler :=
               some (S.scFitTransform sc (S.vFitTransform st.feat_vectorizer X).2).1,
             feat_selector :=
               some (S.seFitTransform se
                 (S.scFitTransform sc (S.vFitTransform st.feat_vectorizer X).2).2
                 (S.ceFitTransform st.class_encoder y).2).1 },
           (S.seFitTransform se
             (S.scFitTransform sc (S.vFitTransform st.feat_vectorizer X).2).2
             (S.ceFitTransform st.class_encoder y).2).2,
           some (S.ceFitTransform st.class_encoder y).2)) := by
  refine ⟨rfl, rfl, ?_, ?_, ?_, ?_, ?_, ?_⟩
  · intro h1 h2
    simp [preprocess_data, h1, h2]
  · intro sc h1 h2
    simp [preprocess_data, h1, h2]
  · intro se h1 h2
    simp [preprocess_data, h1, h2]
  · intro sc se h1 h2
    simp [preprocess_data, h1, h2]
  · intro h1 h2
    simp [preprocess_data, h1, h2]
  · intro sc se h1 h2
    simp [preprocess_data, h1, h2]

/-- Witness for C6 with both stages configured: the matrix carries the
stage markers in selector-after-scaler-after-vectorizer order, in both
transform and fit modes. -/
theorem preprocess_data_stage_order_witness :
    (stFullPipeEx.feat_scaler = some () ∧ stFullPipeEx.feat_selector = some ()) ∧
    (preprocess_data stagesEx stFullPipeEx [7] (some [4]) false).2.1
      = [2, 1, 0, 7] ∧
    preprocess_data stagesEx stFullPipeEx [7] (some [4]) true
      = ({ class_encoder := [4], feat_vectorizer := (),
           feat_scaler := some (), feat_selector := some () },
         [2, 1, 0, 7], some [4]) ∧
    (preprocess_data stagesEx stFullPipeEx [7] (some [4]) false).1 = stFullPipeEx :=
  ⟨⟨rfl, rfl⟩,
   (preprocess_data_stage_order stagesEx stFullPipeEx [7] (some [4])).2.2.2.2.2.1
     () () rfl rfl,
   (preprocess_data_stage_order stagesEx stFullPipeEx [7] (some [4])).2.2.2.2.2.2.2
     () () rfl rfl,
   (preprocess_data_stage_order stagesEx stFullPipeEx [7] (some [4])).1⟩

/-! ## Lemmas about the trainer -/

theorem map_getD_range_self {α : Type} (l : List α) (d : α) :
    (List.range l.length).map (fun i => l.getD i d) = l := by
  apply List.ext_getElem
  · simp
  · intro i h1 h2
    simp [List.getD_eq_getElem?_getD, List.getElem?_eq_getElem h2]

theorem shuffled_labels_perm {α : Type} (labels : List α) (d : α) (perm : List ℕ)
    (hperm : perm.Perm (List.range labels.length)) :
    (perm.map fun i => labels.getD i d).Perm labels := by
  have h := hperm.map fun i => labels.getD i d
  rwa [map_getD_range_self] at h

theorem perm_toFinset {α : Type} [DecidableEq α] {l₁ l₂ : List α}
    (h : l₁.Perm l₂) : l₁.toFinset = l₂.toFinset := by
  ext a
  simp [List.mem_toFinset, h.mem_iff]

theorem get_model_constructor_unrecognized (cn ct : String)
    (hk : ct ∉ [LOG_REG_TYPE, DECISION_TREE_TYPE, RANDOM_FOREST_TYPE, SVM_TYPE]) :
    get_model_constructor cn ct
      = .error (.valueError
          (cn ++ ": Classifier type '" ++ ct ++ "' not recognized")) := by
  have h1 : ct ≠ LOG_REG_TYPE := fun h => hk (by simp [h])
  have h2 : ct ≠ DECISION_TREE_TYPE := fun h => hk (by simp [h])
  have h3 : ct ≠ RANDOM_FOREST_TYPE := fun h => hk (by simp [h])
  have h4 : ct ≠ SVM_TYPE := fun h => hk (by simp [h])
  simp [get_model_constructor, h1, h2, h3, h4]

/-! ## Claim C4 -/

/-- C4: For every `fit` call in which the set of distinct labels has at
most one element, training is a no-op that returns successfully (returns
`self`) and leaves the entire fitted state — and even the caller's
parameter store — exactly as it was, whether fitted or still unfit. -/
theorem fit_degenerate_labels_noop {E L FR M CE V Sc Se Clf R : Type}
    [DecidableEq L]
    (ext : TMExt E L FR M CE V Sc Se Clf R) (cfg : TMConfig) (dE : E) (dL : L)
    (st : TMState CE V Sc Se Clf) (σ : Store (ParamsSingle ℕ R))
    (examples : List E) (labels : List L) (params? : Option Ref) (perm : List ℕ)
    (hperm : perm.Perm (List.range labels.length))
    (hdeg : labels.toFinset.card ≤ 1) :
    TextModel_fit ext cfg dE dL st σ examples labels params? perm
      = (.ok st, σ) := by
  have hsh : (perm.map fun i => labels.getD i dL).toFinset = labels.toFinset :=
    perm_toFinset (shuffled_labels_perm labels dL perm hperm)
  have hc : (perm.map fun i => labels.getD i dL).toFinset.card ≤ 1 := by
    rw [hsh]; exact hdeg
  simp only [TextModel_fit, if_pos hc]

/-- Witness for C4: a two-example batch with a single distinct label,
shuffled by the non-identity permutation, leaves the unfit state and the
store untouched. -/
theorem fit_degenerate_labels_noop_witness :
    (([1, 0] : List ℕ).Perm (List.range ([5, 5] : List ℕ).length) ∧
      ([5, 5] : List ℕ).toFinset.card ≤ 1) ∧
    TextModel_fit extEx cfgLogreg 0 0 stEx σEx [1, 2] [5, 5] none [1, 0]
      = (.ok stEx, σEx) :=
  ⟨⟨by decide, by decide⟩,
   fit_degenerate_labels_noop extEx cfgLogreg 0 0 stEx σEx [1, 2] [5, 5] none
     [1, 0] (by decide) (by decide)⟩

/-! ## Claim C5 -/

/-- C5 counterexample: with the unrecognized classifier type `"bogus"`
the claimed error is *not* raised before any computation.  With a
degenerate label set `fit` returns successfully without raising at all,
and on a non-degenerate input the `ValueError` is raised only after the
training data has been processed — observably, the caller's parameter
dictionary has already been converted in place when the error
propagates. -/
theorem fit_unrecognized_kind_counterexample :
    (TextModel_fit extEx cfgBogus 0 0 stEx σEx [1, 2] [5, 5] (some 0) [0, 1]).1
      = .ok stEx ∧
    (TextModel_fit extEx cfgBogus 0 0 stEx σEx [1, 2] [5, 7] (some 0) [0, 1]).1
      = .error (.valueError "TextModel: Classifier type 'bogus' not recognized") ∧
    (TextModel_fit extEx cfgBogus 0 0 stEx σEx [1, 2] [5, 7] (some 0) [0, 1]).2 0
      = { class_weight := some [(WKey.int 5, 2)], class_bias := none, rest := () } ∧
    (TextModel_fit extEx cfgBogus 0 0 stEx σEx [1, 2] [5, 7] (some 0) [0, 1]).2 0
      ≠ σEx 0 := by
  refine ⟨rfl, rfl, rfl, ?_⟩
  decide

/-- C5 (amended): For every configuration whose classifier kind is not
one of the recognized kinds, `fit` on the direct-fitting path (explicit
params, at least two distinct labels) raises a `ValueError` whose
message names the offending kind.  The error is raised inside `_fit`
*after* shuffling, label encoding and feature-matrix construction — not
before any computation: with at most one distinct label the same
configuration returns successfully (see the counterexample). -/
theorem fit_unrecognized_kind_error {E L FR M CE V Sc Se Clf R : Type}
    [DecidableEq L]
    (ext : TMExt E L FR M CE V Sc Se Clf R) (cfg : TMConfig) (dE : E) (dL : L)
    (st : TMState CE V Sc Se Clf) (σ : Store (ParamsSingle ℕ R))
    (examples : List E) (labels : List L) (ρ : Ref) (perm : List ℕ)
    (hperm : perm.Perm (List.range labels.length))
    (hnd : 2 ≤ labels.toFinset.card)
    (hk : cfg.classifier_type
      ∉ [LOG_REG_TYPE, DECISION_TREE_TYPE, RANDOM_FOREST_TYPE, SVM_TYPE]) :
    (TextModel_fit ext cfg dE dL st σ examples labels (some ρ) perm).1
      = .error (.valueError
          ("TextModel: Classifier type '" ++ cfg.classifier_type
            ++ "' not recognized")) ∧
    ∃ pre post : String,
      "TextModel: Classifier type '" ++ cfg.classifier_type ++ "' not recognized"
        = pre ++ cfg.classifier_type ++ post := by
  constructor
  · have hsh : (perm.map fun i => labels.getD i dL).toFinset = labels.toFinset :=
      perm_toFinset (shuffled_labels_perm labels dL perm hperm)
    have hc : ¬ (perm.map fun i => labels.getD i dL).toFinset.card ≤ 1 := by
      rw [hsh]; omega
    simp only [TextModel_fit]
    rw [if_neg hc, get_model_constructor_unrecognized "TextModel"
      cfg.classifier_type hk]
    rfl
  · exact ⟨"TextModel: Classifier type '", "' not recognized", rfl⟩

/-- Witness for the amended C5 at the concrete `"bogus"` configuration
with two distinct labels. -/
theorem fit_unrecognized_kind_error_witness :
    (([0, 1] : List ℕ).Perm (List.range ([5, 7] : List ℕ).length) ∧
      2 ≤ ([5, 7] : List ℕ).toFinset.card ∧
      cfgBogus.classifier_type
        ∉ [LOG_REG_TYPE, DECISION_TREE_TYPE, RANDOM_FOREST_TYPE, SVM_TYPE]) ∧
    ((TextModel_fit extEx cfgBogus 0 0 stEx σEx [1, 2] [5, 7] (some 0) [0, 1]).1
      = .error (.valueError
          ("TextModel: Classifier type '" ++ cfgBogus.classifier_type
            ++ "' not recognized")) ∧
    ∃ pre post : String,
      "TextModel: Classifier type '" ++ cfgBogus.classifier_type
          ++ "' not recognized"
        = pre ++ cfgBogus.classifier_type ++ post) :=
  ⟨⟨by decide, by decide, by decide⟩,
   fit_unrecognized_kind_error extEx cfgBogus 0 0 stEx σEx [1, 2] [5, 7] 0 [0, 1]
     (by decide) (by decide) (by decide)⟩

/-! ## Claim C9 -/

/-- C9: `_convert_params` mutates the parameter dictionary it is given
in place and returns that same dictionary object: the store slot behind
the passed reference is rewritten (a `class_bias` entry deleted and a
`class_weight` entry inserted, or an existing `class_weight` entry
overwritten with the translated mappings) while every other slot is
untouched, and the returned reference is the argument reference.
Consequently, after `fit` with explicit params the caller's own
dictionary has been modified and the stored `_current_params` attribute
aliases that converted dictionary rather than a fresh copy. -/
theorem convert_params_in_place_and_alias
    {E L FR M CE V Sc Se Clf R L2 R2 : Type} [DecidableEq L]
    (ext : TMExt E L FR M CE V Sc Se Clf R) (cfg : TMConfig) (dE : E) (dL : L)
    (st : TMState CE V Sc Se Clf) (σ : Store (ParamsSingle ℕ R))
    (examples : List E) (labels : List L) (ρ : Ref) (perm : List ℕ)
    (T : L2 → ℕ) (y2 : List ℕ) (classes2 : List L2) (ρ2 : Ref)
    (σ2 : Store (ParamsSingle L2 R2)) (pd : ParamsSingle L2 R2)
    (ctor : ClfConstructor)
    (hperm : perm.Perm (List.range labels.length))
    (hnd : 2 ≤ labels.toFinset.card)
    (hctor : get_model_constructor "TextModel" cfg.classifier_type = .ok ctor) :
    (convert_params_ref T y2 classes2 ρ2 σ2).1 = ρ2 ∧
    (convert_params_ref T y2 classes2 ρ2 σ2).2 ρ2
      = convert_params_single T y2 classes2 (σ2 ρ2) ∧
    (∀ ρ', ρ' ≠ ρ2 → (convert_params_ref T y2 classes2 ρ2 σ2).2 ρ' = σ2 ρ') ∧
    (∀ b, pd.class_weight = none → pd.class_bias = some b →
      (convert_params_single T y2 classes2 pd).class_bias = none ∧
      (convert_params_single T y2 classes2 pd).class_weight
        = some (bias_weight_map L2 y2 classes2.length b)) ∧
    (∀ cw, pd.class_weight = some cw →
      (convert_params_single T y2 classes2 pd).class_weight
        = some (translate_cw T cw)) ∧
    ∃ (st' : TMState CE V Sc Se Clf) (Tf : ℕ → ℕ) (yf cf : List ℕ),
      TextModel_fit ext cfg dE dL st σ examples labels (some ρ) perm
        = (.ok st', (convert_params_ref Tf yf cf ρ σ).2) ∧
      st'.current_params = some ρ := by
  refine ⟨rfl, ?_, ?_, ?_, ?_, ?_⟩
  · simp [convert_params_ref]
  · intro ρ' h
    simp [convert_params_ref, Function.update_noteq h]
  · intro b hcw hcb
    simp [convert_params_single, hcw, hcb]
  · intro cw hcw
    simp [convert_params_single, hcw]
  · have hsh : (perm.map fun i => labels.getD i dL).toFinset = labels.toFinset :=
      perm_toFinset (shuffled_labels_perm labels dL perm hperm)
    have hc : ¬ (perm.map fun i => labels.getD i dL).toFinset.card ≤ 1 := by
      rw [hsh]; omega
    simp only [TextModel_fit]
    rw [if_neg hc, hctor]
    exact ⟨_, _, _, _, rfl, rfl⟩

/-- Witness for C9: the reference is preserved and the store slot
converted, other slots untouched, and the concrete `logreg` fit returns
a state whose `_current_params` is the caller's reference `3`. -/
theorem convert_params_in_place_and_alias_witness :
    (([0, 1] : List ℕ).Perm (List.range ([5, 7] : List ℕ).length) ∧
      2 ≤ ([5, 7] : List ℕ).toFinset.card ∧
      get_model_constructor "TextModel" cfgLogreg.classifier_type
        = .ok .LogisticRegression) ∧
    (convert_params_ref (fun l : ℕ => l) yEx classesEx 1 σEx).1 = 1 ∧
    (convert_params_ref (fun l : ℕ => l) yEx classesEx 1 σEx).2 1
      = convert_params_single (fun l : ℕ => l) yEx classesEx (σEx 1) ∧
    (convert_params_ref (fun l : ℕ => l) yEx classesEx 1 σEx).2 0 = σEx 0 ∧
    ∃ (st' : TMState (List ℕ) Unit Unit Unit ℕ) (Tf : ℕ → ℕ) (yf cf : List ℕ),
      TextModel_fit extEx cfgLogreg 0 0 stEx σEx [1, 2] [5, 7] (some 3) [0, 1]
        = (.ok st', (convert_params_ref Tf yf cf 3 σEx).2) ∧
      st'.current_params = some 3 := by
  have H := convert_params_in_place_and_alias extEx cfgLogreg 0 0 stEx σEx
    [1, 2] [5, 7] 3 [0, 1] (fun l : ℕ => l) yEx classesEx 1 σEx pdEx
    .LogisticRegression (by decide) (by decide) rfl
  exact ⟨⟨by decide, by decide, rfl⟩, H.1, H.2.1, H.2.2.1 0 (by decide),
    H.2.2.2.2.2⟩
